import Mathlib

/-!
Verification of the oxideux file-transfer protocol core.

This file gives a shallow embedding of the protocol core of the oxideux
repository (src/request.rs, src/parity.rs, src/connection.rs, and the
request-handling parts of src/bin/server.rs and src/bin/client.rs) and
settles the specification claims against it.

Modelling conventions:
* Machine integers are `Nat` with explicit `% 2^32` / `% 2^64` at the
  points where the Rust code performs an `as u32` cast or fixed-width
  serialization.
* A file on disk is its byte content, a `List Nat` of values below 256;
  an `Entry`'s `path` field is replaced by the content that `File::open`
  on that path would yield.
* Directory scans take the directory's immediate children as an explicit
  list (the filesystem side of `fs::read_dir`).
* The server's sends and blocking reads are logged as an event trace,
  in program order; the Rust `?` early-return is modelled by explicit
  branching on `Except` values.
-/

namespace Oxideux

/-- Wire request vocabulary, from `src/request.rs` (`enum Request`).
The `u64` payload of `DownloadFileByIndex` is modelled as a `Nat`
(meaningful values are below `2^64`). The commented-out `UploadFile`
variant of the source is absent, as in the compiled code. -/
inductive Request where
  | Disconnect
  | GetFileCount
  | DownloadFileByIndex (index : Nat)
  | DownloadFileByName (name : String)
  | DownloadAllFiles
deriving DecidableEq, Repr

/-- Wire result vocabulary, from `src/request.rs` (`enum RequestResult`). -/
inductive RequestResult where
  | Ok
  | ErrUnauthorizedAccess
  | ErrIndexOutOfBounds
deriving DecidableEq, Repr

/-- Server-side error outcomes. `rejection` stands for the `anyhow!` errors
produced by `RequestResult::naturalize`; `ioError` for filesystem/socket
failures; `protocolError` for decode failures; `panicked` marks a Rust
panic (out-of-bounds indexing, `unwrap` on `None`). -/
inductive SrvErr where
  | rejection
  | ioError
  | protocolError
  | panicked
deriving DecidableEq, Repr

/-- `RequestResult::naturalize` from `src/request.rs`: `Ok` maps to `Ok(())`,
the two error variants map to `Err(anyhow!(..))`. -/
def RequestResult.naturalize : RequestResult → Except SrvErr Unit
  | .Ok => .ok ()
  | .ErrUnauthorizedAccess => .error .rejection
  | .ErrIndexOutOfBounds => .error .rejection

/-- One immediate child of the parity root as the filesystem reports it:
its name, whether it is a directory, its metadata byte length (a `u64`),
and its byte content on disk. -/
structure DirEntry where
  name : String
  isDir : Bool
  length : Nat
  content : List Nat
deriving DecidableEq, Repr

/-- `Entry` from `src/parity.rs`, with the `path` field replaced by the
byte content of the file at that path. `length` is the `u32` produced by
`metadata.len() as u32`. -/
structure Entry where
  name : String
  length : Nat
  content : List Nat
deriving DecidableEq, Repr

/-- `get_file_entries` from `src/parity.rs`: keep every immediate child
whose metadata is not a directory, in enumeration order, recording the
name and the `u64` metadata length cast to `u32`. -/
def get_file_entries (children : List DirEntry) : List Entry :=
  (children.filter (fun e => !e.isDir)).map
    (fun e => { name := e.name, length := e.length % 2^32, content := e.content })

/-- One discrete value on the wire, as the connection-level functions of
`src/connection.rs` send and receive them: a framed `RequestResult`, a raw
`u32`, a framed string, or a run of raw file bytes. -/
inductive Msg where
  | result (r : RequestResult)
  | u32 (value : Nat)
  | str (s : String)
  | bytes (bs : List Nat)
deriving DecidableEq, Repr

/-- A server-side connection event: a send, or a (blocking) successfully
decoded read of a `RequestResult` acknowledgment. -/
inductive SEv where
  | send (m : Msg)
  | recvResult (r : RequestResult)
deriving DecidableEq, Repr

/-- `Connection::send_file` from `src/connection.rs`: send the entry's
`u32` length, then the file's bytes (the 4096-byte chunked copy writes the
content contiguously onto the stream). -/
def send_file (e : Entry) : List SEv :=
  [.send (.u32 (e.length % 2^32)), .send (.bytes e.content)]

/-- The `Request::GetFileCount` arm of `handle_client` in
`src/bin/server.rs`: scan, send `Ok`, send the entry count as a `u32`. -/
def handle_get_file_count (children : List DirEntry) : List SEv × Except SrvErr Unit :=
  let entries := get_file_entries children
  ([.send (.result .Ok), .send (.u32 (entries.length % 2^32))], .ok ())

/-- The `Request::DownloadFileByIndex` arm of `handle_client` in
`src/bin/server.rs`. The bounds check sends `ErrIndexOutOfBounds` and
aborts through `naturalize()?`; the code after the `if` block (reached
only when no early return fired) indexes `entries[index]`, which panics
when out of bounds. -/
def handle_download_by_index (children : List DirEntry) (index : Nat) :
    List SEv × Except SrvErr Unit :=
  let entries := get_file_entries children
  let after_guard : List SEv → List SEv × Except SrvErr Unit := fun sent =>
    match entries[index]? with
    | none => (sent, .error .panicked)
    | some entry =>
      (sent ++ [.send (.result .Ok), .send (.str entry.name)] ++ send_file entry, .ok ())
  if index ≥ entries.length then
    match RequestResult.naturalize .ErrIndexOutOfBounds with
    | .error e => ([.send (.result .ErrIndexOutOfBounds)], .error e)
    | .ok _ => after_guard [.send (.result .ErrIndexOutOfBounds)]
  else after_guard []

/-- The per-entry loop of the `Request::DownloadAllFiles` arm of
`handle_client`: for each entry send its name and its file, then block
reading one `RequestResult` acknowledgment (whose decoded value is
discarded) before the next entry. The acknowledgment stream is a list of
`Option RequestResult`: `none` is a frame that fails to decode, and
running out of the list is the stream ending (a read error). -/
def download_all_loop : List Entry → List (Option RequestResult) → List SEv × Except SrvErr Unit
  | [], _ => ([], .ok ())
  | entry :: entries, acks =>
    let sent := .send (.str entry.name) :: send_file entry
    match acks with
    | [] => (sent, .error .ioError)
    | none :: _ => (sent, .error .protocolError)
    | some r :: acks' =>
      let next := download_all_loop entries acks'
      (sent ++ .recvResult r :: next.1, next.2)

/-- The `Request::DownloadAllFiles` arm of `handle_client` in
`src/bin/server.rs`: scan, send `Ok`, send the count as a `u32`, then run
the per-entry loop. -/
def handle_download_all (children : List DirEntry) (acks : List (Option RequestResult)) :
    List SEv × Except SrvErr Unit :=
  let entries := get_file_entries children
  let next := download_all_loop entries acks
  (.send (.result .Ok) :: .send (.u32 (entries.length % 2^32)) :: next.1, next.2)

/-! ## `Connection::read_file` (`src/connection.rs`), byte level

The receiving loop is modelled at the byte level. The stream is a list of
read outcomes: each `TcpStream::read` call yields the next element — a
chunk of bytes (of any size the transport happens to deliver, at most
4096) or an I/O error. When the list is exhausted the peer has closed the
connection: every further `read` returns `Ok` with zero bytes, exactly as
a `TcpStream` does after a clean shutdown. The `u32` length prefix that
`read_file` reads first is the `length` argument here. The loop is run on
fuel; `hung` means the given number of iterations did not finish it. -/

/-- One `read` outcome on the stream feeding `Connection::read_file`. -/
inductive ReadChunk where
  | data (bs : List Nat)
  | ioErr
deriving DecidableEq, Repr

/-- Result of running the `read_file` receive loop: finished with the
bytes written to the destination file, the unconsumed stream and the final
`bytes_read` counter; aborted on an I/O error (partial file retained); or
still running when the fuel ran out. -/
inductive ReadFileResult where
  | done (file : List Nat) (rest : List ReadChunk) (bytes_read : Nat)
  | ioError (file : List Nat)
  | hung
deriving DecidableEq, Repr

/-- The `while bytes_read < length` loop of `Connection::read_file`:
read a chunk, add its size to `bytes_read`, append it to the destination
file. An empty stream means every read returns zero bytes (clean peer
shutdown). -/
def read_file_loop : Nat → Nat → Nat → List ReadChunk → List Nat → ReadFileResult
  | 0, _, _, _, _ => .hung
  | fuel + 1, length, bytes_read, stream, file =>
    if bytes_read < length then
      match stream with
      | [] => read_file_loop fuel length (bytes_read + 0) [] (file ++ [])
      | .ioErr :: _ => .ioError file
      | .data bs :: rest => read_file_loop fuel length (bytes_read + bs.length) rest (file ++ bs)
    else .done file stream bytes_read

/-- `Connection::read_file` after its `read_u32` of the expected length:
run the receive loop with `bytes_read = 0` on a newly created (empty)
destination file. -/
def read_file (fuel length : Nat) (stream : List ReadChunk) : ReadFileResult :=
  read_file_loop fuel length 0 stream []

/-! ## Client driver (`client` in `src/bin/client.rs`), message level

The client's reads are modelled one wire value at a time: its inbox is the
list of `Msg` values the server sent, in order. A read of the wrong shape
(or from an exhausted inbox) is a protocol error. `read_file_c` is
`Connection::read_file` at this granularity: the `u32` length followed by
exactly that many raw bytes (the byte-level chunking of the same function
is `read_file_loop` above). -/

/-- Client-side error: any failed read (decode failure or stream end). -/
inductive CErr where
  | protocolError
deriving DecidableEq, Repr

/-- A client-side connection event: the framed `Request` send, a framed
`RequestResult` send, or a received wire value. -/
inductive CEv where
  | sendReq (r : Request)
  | send (m : Msg)
  | recv (m : Msg)
deriving DecidableEq, Repr

/-- `Connection::read_request_result`, client side: take a framed result. -/
def read_result_c : List Msg → Option (RequestResult × List Msg)
  | .result r :: rest => some (r, rest)
  | _ => none

/-- `Connection::read_u32`, client side: take a raw `u32`. -/
def read_u32_c : List Msg → Option (Nat × List Msg)
  | .u32 n :: rest => some (n, rest)
  | _ => none

/-- `Connection::read_string`, client side: take a framed string. -/
def read_string_c : List Msg → Option (String × List Msg)
  | .str s :: rest => some (s, rest)
  | _ => none

/-- `Connection::read_file`, client side at message granularity: take the
`u32` byte length, then the run of exactly that many raw file bytes. -/
def read_file_c : List Msg → Option ((Nat × List Nat) × List Msg)
  | .u32 n :: .bytes bs :: rest => if bs.length = n then some ((n, bs), rest) else none
  | _ => none

/-- The `for i in 0..count` loop of the `Request::DownloadAllFiles` arm of
`client` in `src/bin/client.rs`: read the entry name, read the file, then
send `RequestResult::Ok` back, `count` times. -/
def client_all_loop : Nat → List Msg → List CEv × Except CErr Unit
  | 0, _ => ([], .ok ())
  | count + 1, inbox =>
    match read_string_c inbox with
    | none => ([], .error .protocolError)
    | some (name, inbox1) =>
      match read_file_c inbox1 with
      | none => ([.recv (.str name)], .error .protocolError)
      | some ((len, bs), inbox2) =>
        let next := client_all_loop count inbox2
        (.recv (.str name) :: .recv (.u32 len) :: .recv (.bytes bs) ::
          .send (.result .Ok) :: next.1, next.2)

/-- `client` from `src/bin/client.rs`: build `Request::DownloadAllFiles`,
send it, then match on the request to run the corresponding
reply-consumption sequence. All five match arms of the source are
reproduced; the scrutinee is the literal the function just built. The
received `RequestResult` values are bound and dropped exactly where the
source drops them (it never calls `naturalize`). -/
def client (inbox : List Msg) : List CEv × Except CErr Unit :=
  let request : Request := .DownloadAllFiles
  let sent : List CEv := [.sendReq request]
  match request with
  | .Disconnect => (sent, .ok ())
  | .GetFileCount =>
    match read_result_c inbox with
    | none => (sent, .error .protocolError)
    | some (r, inbox1) =>
      match read_u32_c inbox1 with
      | none => (sent ++ [.recv (.result r)], .error .protocolError)
      | some (count, _) => (sent ++ [.recv (.result r), .recv (.u32 count)], .ok ())
  | .DownloadFileByIndex _ =>
    match read_result_c inbox with
    | none => (sent, .error .protocolError)
    | some (r, inbox1) =>
      match read_string_c inbox1 with
      | none => (sent ++ [.recv (.result r)], .error .protocolError)
      | some (name, inbox2) =>
        match read_file_c inbox2 with
        | none => (sent ++ [.recv (.result r), .recv (.str name)], .error .protocolError)
        | some ((len, bs), _) =>
          (sent ++ [.recv (.result r), .recv (.str name), .recv (.u32 len), .recv (.bytes bs)],
            .ok ())
  | .DownloadFileByName _ =>
    match read_result_c inbox with
    | none => (sent, .error .protocolError)
    | some (r, inbox1) =>
      match read_file_c inbox1 with
      | none => (sent ++ [.recv (.result r)], .error .protocolError)
      | some ((len, bs), _) =>
        (sent ++ [.recv (.result r), .recv (.u32 len), .recv (.bytes bs)], .ok ())
  | .DownloadAllFiles =>
    match read_result_c inbox with
    | none => (sent, .error .protocolError)
    | some (r, inbox1) =>
      match read_u32_c inbox1 with
      | none => (sent ++ [.recv (.result r)], .error .protocolError)
      | some (count, inbox2) =>
        let next := client_all_loop count inbox2
        (sent ++ [.recv (.result r), .recv (.u32 count)] ++ next.1, next.2)

/-! ## Paths and the `DownloadFileByName` arm (`src/bin/server.rs`)

Paths are their component lists, as `std::path` exposes them: a root
marker, `..` markers, and normal components. `Path::components` drops `.`
and empty components, which the parser below reproduces. The filesystem
for this arm maps canonical absolute paths to file contents (plus the set
of existing directories); symlinks are not modelled, so canonicalization
is `..`-resolution plus an existence check. -/

/-- One `std::path` component: the root, `..`, or a named component. -/
inductive PComp where
  | rootDir
  | parentDir
  | normal (s : String)
deriving DecidableEq, Repr

/-- Split a character list at `/` separators. -/
def split_slash (acc : List Char) : List Char → List (List Char)
  | [] => [acc.reverse]
  | '/' :: rest => acc.reverse :: split_slash [] rest
  | c :: rest => split_slash (c :: acc) rest

/-- Parse a path string into its components the way `Path::components`
does: empty and `.` segments vanish, `..` is `parentDir`, a leading `/`
is the root. -/
def parse_path (s : String) : List PComp :=
  let comps := (split_slash [] s.data).filterMap fun seg =>
    if seg = [] ∨ seg = ['.'] then none
    else if seg = ['.', '.'] then some .parentDir
    else some (.normal (String.mk seg))
  match s.data with
  | '/' :: _ => .rootDir :: comps
  | _ => comps

/-- `PathBuf::push`: pushing an absolute path replaces the whole path,
otherwise the components are appended (no normalization happens). -/
def path_push (base child : List PComp) : List PComp :=
  match child with
  | .rootDir :: _ => child
  | _ => base ++ child

/-- Resolve `..` components of an absolute path textually (the symlink-free
part of what the operating system does when it looks a path up): a `..`
drops the preceding normal component and is absorbed at the root. -/
def normalize_go (stack : List PComp) : List PComp → List PComp
  | [] => stack.reverse
  | .rootDir :: rest => normalize_go [.rootDir] rest
  | .parentDir :: rest =>
    match stack with
    | .normal _ :: stack' => normalize_go stack' rest
    | _ => normalize_go stack rest
  | .normal s :: rest => normalize_go (.normal s :: stack) rest

/-- Normal form of an absolute path: `..`-free component list. -/
def normalize (p : List PComp) : List PComp := normalize_go [] p

/-- The filesystem seen by the `DownloadFileByName` arm: regular files as
canonical absolute path ↦ byte content, plus the canonical paths of the
existing directories. -/
structure FileSys where
  files : List (List PComp × List Nat)
  dirs : List (List PComp)
deriving DecidableEq, Repr

/-- Content of the regular file a path resolves to, if any (the OS
resolves `..` components during lookup). -/
def FileSys.file? (fs : FileSys) (p : List PComp) : Option (List Nat) :=
  (fs.files.find? (fun e => e.1 == normalize p)).map (fun e => e.2)

/-- `Path::canonicalize`: succeeds with the resolved path when the path
exists (as a file or directory), fails otherwise. -/
def FileSys.canonicalize (fs : FileSys) (p : List PComp) : Option (List PComp) :=
  let n := normalize p
  if fs.files.any (fun e => e.1 == n) || fs.dirs.any (fun d => d == n) then some n else none

/-- `Path::file_name`: the final component when it is a normal one. -/
def path_file_name (p : List PComp) : Option String :=
  match p.getLast? with
  | some (.normal s) => some s
  | _ => none

/-- `get_file_entry` from `src/parity.rs`: error unless the path resolves
to a regular file (`path.is_file()`); then build the entry from
`file_name().unwrap()` (a panic if the name is absent) and the metadata
length cast to `u32`. -/
def get_file_entry (fs : FileSys) (path : List PComp) : Except SrvErr Entry :=
  match fs.file? path with
  | none => .error .ioError
  | some content =>
    match path_file_name path with
    | none => .error .panicked
    | some name => .ok { name := name, length := content.length % 2^32, content := content }

/-- The `Request::DownloadFileByName` arm of `handle_client` in
`src/bin/server.rs`, line for line: join the name onto the parity root;
call `canonicalize()?` — the `?` propagates its failure, but the
canonicalized value it returns is DROPPED, exactly as in the source; then
test `file_path.starts_with(parity_root)` on the still-unnormalized
`file_path`; on failure send `ErrUnauthorizedAccess` and abort through
`naturalize()?`; otherwise build the entry at `file_path`, send `Ok` and
the file. -/
def handle_download_by_name (fs : FileSys) (root : List PComp) (name : String) :
    List SEv × Except SrvErr Unit :=
  let file_path := path_push root (parse_path name)
  match fs.canonicalize file_path with
  | none => ([], .error .ioError)
  | some _ =>
    let after_guard : List SEv → List SEv × Except SrvErr Unit := fun sent =>
      match get_file_entry fs file_path with
      | .error e => (sent, .error e)
      | .ok entry => (sent ++ [.send (.result .Ok)] ++ send_file entry, .ok ())
    if !(root.isPrefixOf file_path) then
      match RequestResult.naturalize .ErrUnauthorizedAccess with
      | .error e => ([.send (.result .ErrUnauthorizedAccess)], .error e)
      | .ok _ => after_guard [.send (.result .ErrUnauthorizedAccess)]
    else after_guard []

/-! ## Message codec (`src/connection.rs` + bincode), byte level

`send_request` / `send_request_result` serialize the value with bincode
(version 1, default options: little-endian, fixed-width integers, enum
variant tag as a `u32` in declaration order, `String` as a `u64` byte
length followed by its UTF-8 bytes) and send a `u32` length prefix
followed by the serialized bytes. The readers read the 4-byte length,
read exactly that many bytes, and deserialize. Bytes are `Nat` values
below 256. The UTF-8 encoder/decoder below is the strict one Rust's
`String::from_utf8` implements: overlong forms, surrogates and
out-of-range values are rejected. -/

/-- The 4 little-endian bytes of a `u32` (the value is taken mod `2^32`,
where the Rust code applies an `as u32` cast). -/
def u32le (n : Nat) : List Nat :=
  [n % 256, n / 256 % 256, n / 256 ^ 2 % 256, n / 256 ^ 3 % 256]

/-- The 8 little-endian bytes of a `u64`. -/
def u64le (n : Nat) : List Nat :=
  [n % 256, n / 256 % 256, n / 256 ^ 2 % 256, n / 256 ^ 3 % 256,
    n / 256 ^ 4 % 256, n / 256 ^ 5 % 256, n / 256 ^ 6 % 256, n / 256 ^ 7 % 256]

/-- UTF-8 encoding of one unicode scalar value. -/
def utf8_encode_char (n : Nat) : List Nat :=
  if n < 0x80 then [n]
  else if n < 0x800 then [0xC0 + n / 64, 0x80 + n % 64]
  else if n < 0x10000 then [0xE0 + n / 4096, 0x80 + n / 64 % 64, 0x80 + n % 64]
  else [0xF0 + n / 262144, 0x80 + n / 4096 % 64, 0x80 + n / 64 % 64, 0x80 + n % 64]

/-- UTF-8 encoding of a character list. -/
def utf8_encode : List Char → List Nat
  | [] => []
  | c :: cs => utf8_encode_char c.toNat ++ utf8_encode cs

/-- The UTF-8 bytes of a string, as `String::as_bytes` exposes them. -/
def str_bytes (s : String) : List Nat := utf8_encode s.data

/-- One step of strict UTF-8 decoding (`String::from_utf8`): given the
lead byte `b` and the bytes after it, return the decoded unicode scalar
value and how many continuation bytes were consumed. Rejects bad
continuation bytes, overlong encodings (`C0`/`C1` leads, short 3- and
4-byte values), surrogates and values above `0x10FFFF`. -/
def utf8_step (b : Nat) (rest : List Nat) : Option (Nat × Nat) :=
  if b < 0x80 then some (b, 0)
  else if b < 0xC2 then none
  else if b < 0xE0 then
    match rest with
    | b1 :: _ =>
      if 0x80 ≤ b1 ∧ b1 < 0xC0 then some ((b - 0xC0) * 64 + (b1 - 0x80), 1) else none
    | [] => none
  else if b < 0xF0 then
    match rest with
    | b1 :: b2 :: _ =>
      if (0x80 ≤ b1 ∧ b1 < 0xC0) ∧ (0x80 ≤ b2 ∧ b2 < 0xC0) ∧
          0x800 ≤ (b - 0xE0) * 4096 + (b1 - 0x80) * 64 + (b2 - 0x80) ∧
          ((b - 0xE0) * 4096 + (b1 - 0x80) * 64 + (b2 - 0x80) < 0xD800 ∨
            0xDFFF < (b - 0xE0) * 4096 + (b1 - 0x80) * 64 + (b2 - 0x80)) then
        some ((b - 0xE0) * 4096 + (b1 - 0x80) * 64 + (b2 - 0x80), 2)
      else none
    | _ => none
  else if b < 0xF5 then
    match rest with
    | b1 :: b2 :: b3 :: _ =>
      if (0x80 ≤ b1 ∧ b1 < 0xC0) ∧ (0x80 ≤ b2 ∧ b2 < 0xC0) ∧ (0x80 ≤ b3 ∧ b3 < 0xC0) ∧
          0x10000 ≤ (b - 0xF0) * 262144 + (b1 - 0x80) * 4096 + (b2 - 0x80) * 64 + (b3 - 0x80) ∧
          (b - 0xF0) * 262144 + (b1 - 0x80) * 4096 + (b2 - 0x80) * 64 + (b3 - 0x80) < 0x110000
          then
        some ((b - 0xF0) * 262144 + (b1 - 0x80) * 4096 + (b2 - 0x80) * 64 + (b3 - 0x80), 3)
      else none
    | _ => none
  else none

/-- Strict UTF-8 decoding of a whole byte list (`String::from_utf8`):
decode one scalar value with `utf8_step`, drop its continuation bytes,
continue; any step failure fails the whole decode. -/
def utf8_decode : List Nat → Option (List Char)
  | [] => some []
  | b :: rest =>
    match utf8_step b rest with
    | none => none
    | some (v, extra) => (utf8_decode (rest.drop extra)).map (fun cs => Char.ofNat v :: cs)
termination_by bs => bs.length
decreasing_by simp [List.length_drop]; omega

/-- `bincode::serialize` of a `Request`: `u32` variant tag in declaration
order, then the payload (`u64` index, or `u64` byte length + UTF-8 bytes). -/
def serialize_request : Request → List Nat
  | .Disconnect => u32le 0
  | .GetFileCount => u32le 1
  | .DownloadFileByIndex i => u32le 2 ++ u64le i
  | .DownloadFileByName s => u32le 3 ++ u64le (str_bytes s).length ++ str_bytes s
  | .DownloadAllFiles => u32le 4

/-- `bincode::serialize` of a `RequestResult`: `u32` variant tag. -/
def serialize_request_result : RequestResult → List Nat
  | .Ok => u32le 0
  | .ErrUnauthorizedAccess => u32le 1
  | .ErrIndexOutOfBounds => u32le 2

/-- `Connection::send_request`: `u32` length prefix (`data.len() as u32`,
truncating) followed by the serialized bytes. -/
def send_request (r : Request) : List Nat :=
  u32le (serialize_request r).length ++ serialize_request r

/-- `Connection::send_request_result`: same framing as `send_request`. -/
def send_request_result (r : RequestResult) : List Nat :=
  u32le (serialize_request_result r).length ++ serialize_request_result r

/-- Read 4 bytes as a little-endian `u32`; fails when fewer remain. -/
def parse_u32 : List Nat → Option (Nat × List Nat)
  | b0 :: b1 :: b2 :: b3 :: rest =>
    some (b0 + 256 * b1 + 256 ^ 2 * b2 + 256 ^ 3 * b3, rest)
  | _ => none

/-- Read 8 bytes as a little-endian `u64`; fails when fewer remain. -/
def parse_u64 : List Nat → Option (Nat × List Nat)
  | b0 :: b1 :: b2 :: b3 :: b4 :: b5 :: b6 :: b7 :: rest =>
    some (b0 + 256 * b1 + 256 ^ 2 * b2 + 256 ^ 3 * b3 + 256 ^ 4 * b4 + 256 ^ 5 * b5 +
      256 ^ 6 * b6 + 256 ^ 7 * b7, rest)
  | _ => none

/-- `bincode::deserialize::<Request>`: read the `u32` tag, then the
variant payload; a `String` payload is its `u64` byte length, that many
bytes, and a strict UTF-8 validation. Unknown tags fail. -/
def deserialize_request (buf : List Nat) : Option Request :=
  match parse_u32 buf with
  | none => none
  | some (tag, rest) =>
    if tag = 0 then some .Disconnect
    else if tag = 1 then some .GetFileCount
    else if tag = 2 then
      match parse_u64 rest with
      | none => none
      | some (i, _) => some (.DownloadFileByIndex i)
    else if tag = 3 then
      match parse_u64 rest with
      | none => none
      | some (n, rest1) =>
        if rest1.length < n then none
        else
          match utf8_decode (rest1.take n) with
          | none => none
          | some cs => some (.DownloadFileByName (String.mk cs))
    else if tag = 4 then some .DownloadAllFiles
    else none

/-- `bincode::deserialize::<RequestResult>`: read the `u32` tag. -/
def deserialize_request_result (buf : List Nat) : Option RequestResult :=
  match parse_u32 buf with
  | none => none
  | some (tag, _) =>
    if tag = 0 then some .Ok
    else if tag = 1 then some .ErrUnauthorizedAccess
    else if tag = 2 then some .ErrIndexOutOfBounds
    else none

/-- `Connection::read_request`: read the `u32` frame length, read exactly
that many bytes (failing when the stream is shorter), deserialize. -/
def read_request (wire : List Nat) : Option Request :=
  match parse_u32 wire with
  | none => none
  | some (len, rest) =>
    if rest.length < len then none
    else deserialize_request (rest.take len)

/-- `Connection::read_request_result`: same framing as `read_request`. -/
def read_request_result (wire : List Nat) : Option RequestResult :=
  match parse_u32 wire with
  | none => none
  | some (len, rest) =>
    if rest.length < len then none
    else deserialize_request_result (rest.take len)

/-- Domain of the round-trip statement: the `u64` index fits its wire
field, and the name's serialized form fits the `u32` frame-length prefix
(12 header bytes + UTF-8 bytes below `2^32`). -/
def request_wf : Request → Prop
  | .DownloadFileByIndex i => i < 2 ^ 64
  | .DownloadFileByName s => (str_bytes s).length + 12 < 2 ^ 32
  | _ => True

/-! ## Trace-shape helpers used by the theorems -/

/-- Expected server event trace of the `DownloadAllFiles` per-entry loop:
for each entry, its name and its file are sent and then one acknowledgment
is read, strictly before anything of the next entry. -/
def all_events : List Entry → List RequestResult → List SEv
  | [], _ => []
  | _, [] => []
  | e :: es, r :: rs => .send (.str e.name) :: send_file e ++ [.recvResult r] ++ all_events es rs

/-- The wire values a `DownloadAllFiles` server emits for the entry list:
name, `u32` length, raw bytes, per entry in order. -/
def wire_of : List Entry → List Msg
  | [] => []
  | e :: es => .str e.name :: .u32 (e.length % 2 ^ 32) :: .bytes e.content :: wire_of es

/-- Expected client event trace of the `DownloadAllFiles` download loop:
per entry, receive name, length and bytes, then send `Ok`, strictly before
anything of the next entry. -/
def client_all_events : List Entry → List CEv
  | [] => []
  | e :: es =>
    .recv (.str e.name) :: .recv (.u32 (e.length % 2 ^ 32)) :: .recv (.bytes e.content) ::
      .send (.result .Ok) :: client_all_events es

/-- The wire values sent in a server event trace, in order. -/
def sent_msgs (evs : List SEv) : List Msg :=
  evs.filterMap fun e => match e with | .send m => some m | _ => none

/-- The framed `Request` values sent in a client event trace, in order. -/
def req_sends (evs : List CEv) : List Request :=
  evs.filterMap fun e => match e with | .sendReq r => some r | _ => none

/-! ## Theorems -/

/-- C2: the claim says any I/O failure in `Connection::read_file`,
including the peer disconnecting before `expected_length` bytes arrived,
makes the call return an error — i.e. the call always terminates. The
code refutes this: after a clean peer shutdown every `read` returns zero
bytes (`Ok(0)`, not an error), `bytes_read` never advances, and the
`while bytes_read < length` loop never exits. With `expected_length = 1`
and an immediately closed stream, no amount of fuel finishes the loop. -/
theorem read_file_hangs_on_clean_disconnect :
    ∀ fuel : Nat, read_file fuel 1 [] = .hung := by
  intro fuel
  induction fuel with
  | zero => rfl
  | succ n ih =>
    show read_file_loop (n + 1) 1 0 [] [] = .hung
    simpa [read_file_loop, read_file] using ih

/-- C3: the claim says a successful `Connection::read_file` consumes and
writes exactly `expected_length` bytes. The code refutes it: the `read`
into a 4096-byte buffer is not capped at `length - bytes_read`, so with
`expected_length = 2` and one read delivering 4 bytes the loop finishes
having consumed and written all 4 bytes (`bytes_read = 4`). -/
theorem read_file_overshoots_expected_length :
    read_file 2 2 [.data [1, 2, 3, 4]] = .done [1, 2, 3, 4] [] 4 := rfl

/-- C4: when `DownloadFileByIndex(i)` carries an index at or past the end
of the scanned catalog, the server sends exactly the single message
`ErrIndexOutOfBounds` and aborts the request through `naturalize()?`:
no entry name and no file payload follows. -/
theorem download_by_index_out_of_bounds_aborts (children : List DirEntry) (index : Nat)
    (h : (get_file_entries children).length ≤ index) :
    handle_download_by_index children index
      = ([.send (.result .ErrIndexOutOfBounds)], .error .rejection) := by
  simp [handle_download_by_index, RequestResult.naturalize, h]

/-- C4 witness: the empty catalog with index 0 (one past the end). -/
theorem download_by_index_out_of_bounds_aborts_witness :
    handle_download_by_index [] 0
      = ([.send (.result .ErrIndexOutOfBounds)], .error .rejection) :=
  download_by_index_out_of_bounds_aborts [] 0 (by decide)

/-- C10: the `entries[index]` access of the `DownloadFileByIndex` arm is
reached only when `index < entries.len()` — the out-of-bounds path aborts
first via `naturalize()?` — so the dispatcher never panics there, for any
request index and any catalog contents. -/
theorem download_by_index_never_panics (children : List DirEntry) (index : Nat) :
    (handle_download_by_index children index).2 ≠ .error .panicked := by
  unfold handle_download_by_index
  by_cases h : (get_file_entries children).length ≤ index
  · simp [h, RequestResult.naturalize]
  · have hlt : index < (get_file_entries children).length := by omega
    have hsome : (get_file_entries children)[index]? = some ((get_file_entries children)[index]) :=
      List.getElem?_eq_getElem hlt
    simp [h, hsome]

/-- C7: a directory whose immediate children are N regular files and M
subdirectories scans to exactly N entries (subdirectories are skipped, no
recursion), and `GetFileCount` replies `Ok` followed by the raw `u32` N. -/
theorem get_file_count_counts_regular_files (children : List DirEntry) (N M : Nat)
    (hN : children.countP (fun e => !e.isDir) = N)
    (_hM : children.countP (fun e => e.isDir) = M)
    (hbound : N < 2 ^ 32) :
    (get_file_entries children).length = N ∧
      handle_get_file_count children = ([.send (.result .Ok), .send (.u32 N)], .ok ()) := by
  have hlen : (get_file_entries children).length = N := by
    rw [get_file_entries, List.length_map, ← List.countP_eq_length_filter, hN]
  exact ⟨hlen, by
    simp only [handle_get_file_count, hlen]
    rw [Nat.mod_eq_of_lt (by omega)]⟩

/-- C7 witness: one regular file and one subdirectory (N = 1, M = 1). -/
theorem get_file_count_counts_regular_files_witness :
    (get_file_entries
        [{ name := "a", isDir := false, length := 1, content := [0] },
          { name := "d", isDir := true, length := 0, content := [] }]).length = 1 ∧
      handle_get_file_count
          [{ name := "a", isDir := false, length := 1, content := [0] },
            { name := "d", isDir := true, length := 0, content := [] }]
        = ([.send (.result .Ok), .send (.u32 1)], .ok ()) :=
  get_file_count_counts_regular_files _ 1 1 (by decide) (by decide) (by decide)

/-- C1: the claim says the server canonicalizes `root.join(name)` and
serves the file only when the canonicalized path is prefixed by the
canonicalized root, so that `name = "../secret"` is answered with
`UnauthorizedAccess` and no payload. The code refutes this: the result of
`canonicalize()?` is dropped, and `starts_with` runs on the raw joined
path `/data/../secret`, whose components do start with `/data`. Against a
filesystem where `/secret` is a 3-byte file, the server replies `Ok` and
streams `/secret`'s bytes. -/
theorem download_by_name_guard_broken :
    handle_download_by_name
        { files := [([PComp.rootDir, PComp.normal "secret"], [7, 7, 7]),
            ([PComp.rootDir, PComp.normal "data", PComp.normal "a"], [1, 2, 3])],
          dirs := [[PComp.rootDir], [PComp.rootDir, PComp.normal "data"]] }
        (parse_path "/data") "../secret"
      = ([.send (.result .Ok), .send (.u32 3), .send (.bytes [7, 7, 7])], .ok ()) := rfl

/-- C8: `client` in `src/bin/client.rs` builds `Request::DownloadAllFiles`
and sends it; the framed request it sends is always exactly that one, for
every reply stream, so the reply-consumption branches of the other four
variants never run. -/
theorem client_sends_exactly_download_all (inbox : List Msg) :
    req_sends (client inbox).1 = [Request.DownloadAllFiles] := by
  have hloop : ∀ (n : Nat) (ib : List Msg), req_sends (client_all_loop n ib).1 = [] := by
    intro n
    induction n with
    | zero => intro ib; rfl
    | succ m ih =>
      intro ib
      cases hs : read_string_c ib with
      | none => simp [client_all_loop, hs, req_sends]
      | some p =>
        obtain ⟨name, ib1⟩ := p
        cases hf : read_file_c ib1 with
        | none => simp [client_all_loop, hs, hf, req_sends]
        | some q =>
          obtain ⟨⟨len, bs⟩, ib2⟩ := q
          simp [client_all_loop, hs, hf, req_sends] at ih ⊢
          exact ih ib2
  cases hr : read_result_c inbox with
  | none => simp [client, hr, req_sends]
  | some p =>
    obtain ⟨r, inbox1⟩ := p
    cases hu : read_u32_c inbox1 with
    | none => simp [client, hr, hu, req_sends]
    | some q =>
      obtain ⟨count, inbox2⟩ := q
      have := hloop count inbox2
      simp [client, hr, hu, req_sends] at this ⊢
      exact this

/-- Shape of the `DownloadAllFiles` server loop when every acknowledgment
frame decodes: per entry, name and file sends followed by one blocking
acknowledgment read, and an `Ok` outcome. -/
theorem download_all_loop_shape :
    ∀ (es : List Entry) (rs : List RequestResult), rs.length = es.length →
      download_all_loop es (rs.map some) = (all_events es rs, .ok ()) := by
  intro es
  induction es with
  | nil => intro rs h; cases rs with
    | nil => rfl
    | cons r rs' => simp at h
  | cons e es ih =>
    intro rs h
    cases rs with
    | nil => simp at h
    | cons r rs' =>
      simp only [List.length_cons] at h
      simp [download_all_loop, all_events, ih rs' (by omega)]

/-- Projecting the sends out of the per-entry event trace gives the wire
values name, length, bytes for each entry. -/
theorem sent_msgs_all_events :
    ∀ (es : List Entry) (rs : List RequestResult), rs.length = es.length →
      sent_msgs (all_events es rs) = wire_of es := by
  intro es
  induction es with
  | nil => intro rs h; cases rs with
    | nil => rfl
    | cons r rs' => simp at h
  | cons e es ih =>
    intro rs h
    cases rs with
    | nil => simp at h
    | cons r rs' =>
      simp only [List.length_cons] at h
      simp [all_events, wire_of, sent_msgs, send_file, List.filterMap_append] at *
      exact ih rs' (by omega)

/-- The client download loop, fed exactly the wire values of an entry
list whose byte contents match their announced lengths, performs per
entry: receive name, length and bytes, then send `Ok`. -/
theorem client_all_loop_wire :
    ∀ es : List Entry, (∀ e ∈ es, e.content.length = e.length % 2 ^ 32) →
      client_all_loop es.length (wire_of es) = (client_all_events es, .ok ()) := by
  intro es
  induction es with
  | nil => intro _; rfl
  | cons e es ih =>
    intro hwf
    have he : e.content.length = e.length % 2 ^ 32 := hwf e (by simp)
    have hrest : ∀ x ∈ es, x.content.length = x.length % 2 ^ 32 :=
      fun x hx => hwf x (by simp [hx])
    simp [client_all_loop, wire_of, client_all_events, read_string_c, read_file_c, he,
      ih hrest]

/-- Entries produced by the catalog scan of a well-formed directory
(metadata length equals content length and fits a `u32`) have matching
content and `u32` length. -/
theorem entries_wf (children : List DirEntry)
    (hwf : ∀ d ∈ children, d.length = d.content.length ∧ d.length < 2 ^ 32) :
    ∀ e ∈ get_file_entries children, e.content.length = e.length % 2 ^ 32 := by
  intro e he
  simp only [get_file_entries, List.mem_map, List.mem_filter] at he
  obtain ⟨d, ⟨hd, _⟩, rfl⟩ := he
  obtain ⟨h1, h2⟩ := hwf d hd
  simp only
  omega

/-- C5: strict one-file-at-a-time pacing of `DownloadAllFiles`. The server
sends `Ok`, the raw `u32` count, and then, per entry in scan order, the
name and file followed by a blocking acknowledgment read before anything
of the next entry (`all_events` interleaves `.recvResult` between entries);
and the client fed that exact wire sequence receives each name and file
and sends `RequestResult::Ok` after the file is complete and before
reading the next entry (`client_all_events`). -/
theorem download_all_strict_pacing (children : List DirEntry) (rs : List RequestResult)
    (hlen : rs.length = (get_file_entries children).length)
    (hcount : (get_file_entries children).length < 2 ^ 32)
    (hwf : ∀ d ∈ children, d.length = d.content.length ∧ d.length < 2 ^ 32) :
    handle_download_all children (rs.map some)
        = (.send (.result .Ok) :: .send (.u32 (get_file_entries children).length) ::
            all_events (get_file_entries children) rs, .ok ())
      ∧ client (sent_msgs (handle_download_all children (rs.map some)).1)
        = ([.sendReq .DownloadAllFiles, .recv (.result .Ok),
            .recv (.u32 (get_file_entries children).length)]
              ++ client_all_events (get_file_entries children), .ok ()) := by
  have hshape := download_all_loop_shape (get_file_entries children) rs hlen
  have hserver : handle_download_all children (rs.map some)
      = (.send (.result .Ok) :: .send (.u32 (get_file_entries children).length) ::
          all_events (get_file_entries children) rs, .ok ()) := by
    simp only [handle_download_all, hshape]
    rw [Nat.mod_eq_of_lt (by omega)]
  refine ⟨hserver, ?_⟩
  rw [hserver]
  have hsent : sent_msgs (.send (.result .Ok) ::
      .send (.u32 (get_file_entries children).length) ::
        all_events (get_file_entries children) rs)
      = .result .Ok :: .u32 (get_file_entries children).length ::
          wire_of (get_file_entries children) := by
    have hwire := sent_msgs_all_events (get_file_entries children) rs hlen
    simp only [sent_msgs] at hwire
    simp [sent_msgs, hwire]
  rw [hsent]
  have hloop := client_all_loop_wire (get_file_entries children) (entries_wf children hwf)
  simp [client, read_result_c, read_u32_c, hloop]

/-- C5 witness: two files of 3 and 5 bytes, both acknowledged with `Ok`. -/
theorem download_all_strict_pacing_witness :
    handle_download_all
          [{ name := "a", isDir := false, length := 3, content := [1, 2, 3] },
            { name := "b", isDir := false, length := 5, content := [4, 5, 6, 7, 8] }]
          ([RequestResult.Ok, RequestResult.Ok].map some)
        = (.send (.result .Ok) ::
            .send (.u32 (get_file_entries
              [{ name := "a", isDir := false, length := 3, content := [1, 2, 3] },
                { name := "b", isDir := false, length := 5, content := [4, 5, 6, 7, 8] }]).length) ::
              all_events
                (get_file_entries
                  [{ name := "a", isDir := false, length := 3, content := [1, 2, 3] },
                    { name := "b", isDir := false, length := 5, content := [4, 5, 6, 7, 8] }])
                [RequestResult.Ok, RequestResult.Ok], .ok ())
      ∧ client (sent_msgs (handle_download_all
            [{ name := "a", isDir := false, length := 3, content := [1, 2, 3] },
              { name := "b", isDir := false, length := 5, content := [4, 5, 6, 7, 8] }]
            ([RequestResult.Ok, RequestResult.Ok].map some)).1)
        = ([.sendReq .DownloadAllFiles, .recv (.result .Ok),
            .recv (.u32 (get_file_entries
              [{ name := "a", isDir := false, length := 3, content := [1, 2, 3] },
                { name := "b", isDir := false, length := 5, content := [4, 5, 6, 7, 8] }]).length)]
              ++ client_all_events (get_file_entries
                [{ name := "a", isDir := false, length := 3, content := [1, 2, 3] },
                  { name := "b", isDir := false, length := 5, content := [4, 5, 6, 7, 8] }]),
            .ok ()) :=
  download_all_strict_pacing _ _ (by decide) (by decide) (by decide)

/-- The server's behavior in the `DownloadAllFiles` loop does not depend
on the decoded values of the acknowledgments, only on how many decode. -/
theorem download_all_loop_acks_agnostic :
    ∀ (es : List Entry) (rs1 rs2 : List RequestResult), rs1.length = rs2.length →
      sent_msgs (download_all_loop es (rs1.map some)).1
          = sent_msgs (download_all_loop es (rs2.map some)).1
        ∧ (download_all_loop es (rs1.map some)).2 = (download_all_loop es (rs2.map some)).2 := by
  intro es
  induction es with
  | nil => intro rs1 rs2 _; exact ⟨rfl, rfl⟩
  | cons e es ih =>
    intro rs1 rs2 h
    cases rs1 with
    | nil =>
      cases rs2 with
      | nil => exact ⟨rfl, rfl⟩
      | cons r2 rs2' => simp at h
    | cons r1 rs1' =>
      cases rs2 with
      | nil => simp at h
      | cons r2 rs2' =>
        simp only [List.length_cons] at h
        obtain ⟨ihs, iho⟩ := ih rs1' rs2' (by omega)
        constructor
        · simp [download_all_loop, sent_msgs, List.filterMap_append] at ihs ⊢
          exact ihs
        · simp [download_all_loop, iho]

/-- C9: during `DownloadAllFiles` the server's subsequent byte sequence is
independent of the values of the per-file acknowledgments: two runs whose
successfully decoded acknowledgment lists have the same length produce the
same sent wire values and the same outcome — the acknowledgment is pacing
only, its variant is never inspected. -/
theorem download_all_ack_value_not_inspected (children : List DirEntry)
    (rs1 rs2 : List RequestResult) (h : rs1.length = rs2.length) :
    sent_msgs (handle_download_all children (rs1.map some)).1
        = sent_msgs (handle_download_all children (rs2.map some)).1
      ∧ (handle_download_all children (rs1.map some)).2
        = (handle_download_all children (rs2.map some)).2 := by
  obtain ⟨hs, ho⟩ := download_all_loop_acks_agnostic (get_file_entries children) rs1 rs2 h
  constructor
  · simp [handle_download_all, sent_msgs] at hs ⊢
    exact hs
  · simp [handle_download_all, ho]

/-- C9 witness: one file, acknowledged with `Ok` in one run and with
`ErrUnauthorizedAccess` in the other. -/
theorem download_all_ack_value_not_inspected_witness :
    sent_msgs (handle_download_all
          [{ name := "a", isDir := false, length := 1, content := [9] }]
          ([RequestResult.Ok].map some)).1
        = sent_msgs (handle_download_all
            [{ name := "a", isDir := false, length := 1, content := [9] }]
            ([RequestResult.ErrUnauthorizedAccess].map some)).1
      ∧ (handle_download_all
          [{ name := "a", isDir := false, length := 1, content := [9] }]
          ([RequestResult.Ok].map some)).2
        = (handle_download_all
            [{ name := "a", isDir := false, length := 1, content := [9] }]
            ([RequestResult.ErrUnauthorizedAccess].map some)).2 :=
  download_all_ack_value_not_inspected _ _ _ (by decide)

/-- Parsing the 4 little-endian bytes of `n` recovers `n mod 2^32`. -/
theorem parse_u32_u32le (n : Nat) (rest : List Nat) :
    parse_u32 (u32le n ++ rest) = some (n % 2 ^ 32, rest) := by
  simp only [u32le, List.cons_append, List.nil_append, parse_u32, Option.some.injEq,
    Prod.mk.injEq, and_true]
  omega

/-- Parsing the 8 little-endian bytes of `n` recovers `n mod 2^64`. -/
theorem parse_u64_u64le (n : Nat) (rest : List Nat) :
    parse_u64 (u64le n ++ rest) = some (n % 2 ^ 64, rest) := by
  simp only [u64le, List.cons_append, List.nil_append, parse_u64, Option.some.injEq,
    Prod.mk.injEq, and_true]
  omega

/-- Decoding the UTF-8 bytes of one character prepended to any byte list
peels off exactly that character. -/
theorem utf8_decode_encode_char (c : Char) (rest : List Nat) :
    utf8_decode (utf8_encode_char c.toNat ++ rest)
      = (utf8_decode rest).map (fun cs => c :: cs) := by
  have hv : c.toNat < 0xD800 ∨ (0xDFFF < c.toNat ∧ c.toNat < 0x110000) := c.valid
  have hofn : Char.ofNat c.toNat = c := Char.ofNat_toNat c
  by_cases h1 : c.toNat < 0x80
  · have e : utf8_encode_char c.toNat = [c.toNat] := by
      rw [utf8_encode_char, if_pos h1]
    have hstep : utf8_step c.toNat rest = some (c.toNat, 0) := by
      rw [utf8_step.eq_def, if_pos h1]
    rw [e, List.cons_append, List.nil_append]
    simp only [utf8_decode, hstep, List.drop_zero, hofn]
  by_cases h2 : c.toNat < 0x800
  · have e : utf8_encode_char c.toNat = [0xC0 + c.toNat / 64, 0x80 + c.toNat % 64] := by
      rw [utf8_encode_char, if_neg h1, if_pos h2]
    have hstep : utf8_step (0xC0 + c.toNat / 64) ((0x80 + c.toNat % 64) :: rest)
        = some (c.toNat, 1) := by
      rw [utf8_step.eq_def]
      rw [if_neg (by omega), if_neg (by omega), if_pos (by omega)]
      try dsimp only
      rw [if_pos (by omega)]
      simp only [Option.some.injEq, Prod.mk.injEq, and_true]
      omega
    rw [e]
    simp only [List.cons_append, List.nil_append]
    simp only [utf8_decode, hstep, List.drop_succ_cons, List.drop_zero, hofn]
  by_cases h3 : c.toNat < 0x10000
  · have e : utf8_encode_char c.toNat
        = [0xE0 + c.toNat / 4096, 0x80 + c.toNat / 64 % 64, 0x80 + c.toNat % 64] := by
      rw [utf8_encode_char, if_neg h1, if_neg h2, if_pos h3]
    have hstep : utf8_step (0xE0 + c.toNat / 4096)
        ((0x80 + c.toNat / 64 % 64) :: (0x80 + c.toNat % 64) :: rest) = some (c.toNat, 2) := by
      rw [utf8_step.eq_def]
      rw [if_neg (by omega), if_neg (by omega), if_neg (by omega), if_pos (by omega)]
      try dsimp only
      rw [if_pos (by omega)]
      simp only [Option.some.injEq, Prod.mk.injEq, and_true]
      omega
    rw [e]
    simp only [List.cons_append, List.nil_append]
    simp only [utf8_decode, hstep, List.drop_succ_cons, List.drop_zero, hofn]
  · have e : utf8_encode_char c.toNat
        = [0xF0 + c.toNat / 262144, 0x80 + c.toNat / 4096 % 64, 0x80 + c.toNat / 64 % 64,
            0x80 + c.toNat % 64] := by
      rw [utf8_encode_char, if_neg h1, if_neg h2, if_neg h3]
    have hstep : utf8_step (0xF0 + c.toNat / 262144)
        ((0x80 + c.toNat / 4096 % 64) :: (0x80 + c.toNat / 64 % 64) :: (0x80 + c.toNat % 64) ::
          rest) = some (c.toNat, 3) := by
      rw [utf8_step.eq_def]
      rw [if_neg (by omega), if_neg (by omega), if_neg (by omega), if_neg (by omega),
        if_pos (by omega)]
      try dsimp only
      rw [if_pos (by omega)]
      simp only [Option.some.injEq, Prod.mk.injEq, and_true]
      omega
    rw [e]
    simp only [List.cons_append, List.nil_append]
    simp only [utf8_decode, hstep, List.drop_succ_cons, List.drop_zero, hofn]

/-- Decoding an encoded character list prepended to any byte list peels
off exactly that character list. -/
theorem utf8_decode_encode_append :
    ∀ (cs : List Char) (rest : List Nat),
      utf8_decode (utf8_encode cs ++ rest) = (utf8_decode rest).map (fun tail => cs ++ tail) := by
  intro cs
  induction cs with
  | nil =>
    intro rest
    simp [utf8_encode]
  | cons c cs ih =>
    intro rest
    rw [utf8_encode, List.append_assoc, utf8_decode_encode_char c (utf8_encode cs ++ rest),
      ih rest]
    cases utf8_decode rest <;> simp

/-- Strict UTF-8 decoding inverts encoding on every character list. -/
theorem utf8_decode_utf8_encode (cs : List Char) : utf8_decode (utf8_encode cs) = some cs := by
  have h := utf8_decode_encode_append cs []
  rw [List.append_nil] at h
  rw [h]
  simp [utf8_decode]

/-- Reading a frame whose `u32` length prefix was not truncated yields the
deserialization of exactly the framed bytes. -/
theorem read_request_frame (data : List Nat) (h : data.length < 2 ^ 32) :
    read_request (u32le data.length ++ data) = deserialize_request data := by
  simp only [read_request, parse_u32_u32le, Nat.mod_eq_of_lt h]
  simp [List.take_length]

/-- C6 (amended): encoding then decoding is the identity on every
`RequestResult` and on every `Request` whose serialized form fits the
`u32` frame-length prefix: any index below `2^64` and any name whose
UTF-8 byte length is below `2^32 − 12`. (The unamended claim, for
arbitrarily long names, fails: see the huge-name counterexample.) -/
theorem codec_roundtrip_amended :
    (∀ r : Request, request_wf r → read_request (send_request r) = some r)
      ∧ ∀ rr : RequestResult, read_request_result (send_request_result rr) = some rr := by
  constructor
  · intro r hwf
    cases r with
    | Disconnect => rfl
    | GetFileCount => rfl
    | DownloadAllFiles => rfl
    | DownloadFileByIndex i =>
      have hi : i < 2 ^ 64 := hwf
      have h64 : parse_u64 (u64le i) = some (i % 2 ^ 64, []) := by
        have h := parse_u64_u64le i []
        simpa using h
      have hfr := read_request_frame (serialize_request (.DownloadFileByIndex i))
        (by simp [serialize_request, u32le, u64le])
      have hi' : i % 2 ^ 64 = i := Nat.mod_eq_of_lt hi
      simp only [send_request]
      rw [hfr]
      simp [deserialize_request, serialize_request, parse_u32_u32le, h64, hi']
      omega
    | DownloadFileByName s =>
      have hb : (str_bytes s).length + 12 < 2 ^ 32 := hwf
      have hdec : utf8_decode (str_bytes s) = some s.data := utf8_decode_utf8_encode s.data
      have hs : String.mk s.data = s := rfl
      have h64 : parse_u64 (u64le (str_bytes s).length ++ str_bytes s)
          = some ((str_bytes s).length % 2 ^ 64, str_bytes s) := parse_u64_u64le _ _
      have hmod : (str_bytes s).length % 2 ^ 64 = (str_bytes s).length :=
        Nat.mod_eq_of_lt (by omega)
      have hfr := read_request_frame (serialize_request (.DownloadFileByName s))
        (by
          simp only [serialize_request, List.length_append, u32le, u64le, List.length_cons,
            List.length_nil]
          omega)
      simp only [send_request]
      rw [hfr]
      simp only [serialize_request, deserialize_request, List.append_assoc, parse_u32_u32le,
        h64, hmod]
      simp [List.take_length, hdec, hs]
  · intro rr
    cases rr <;> rfl

/-- C6 witness: a one-character name, the maximum `u64` index, and a plain
result all round-trip. -/
theorem codec_roundtrip_amended_witness :
    read_request (send_request (.DownloadFileByName "a")) = some (.DownloadFileByName "a")
      ∧ read_request (send_request (.DownloadFileByIndex (2 ^ 64 - 1)))
          = some (.DownloadFileByIndex (2 ^ 64 - 1))
      ∧ read_request_result (send_request_result .Ok) = some .Ok :=
  ⟨codec_roundtrip_amended.1 _ (by unfold request_wf; decide),
    codec_roundtrip_amended.1 _ (by unfold request_wf; norm_num),
    codec_roundtrip_amended.2 .Ok⟩

/-- The UTF-8 encoding of a run of `'a'` is the same run of byte 97. -/
theorem utf8_encode_replicate (n : Nat) :
    utf8_encode (List.replicate n 'a') = List.replicate n 97 := by
  induction n with
  | zero => rfl
  | succ m ih =>
    simp [List.replicate_succ, utf8_encode, utf8_encode_char,
      show ('a').toNat = 97 from rfl, ih]

/-- C6 counterexample to the unamended claim: a name of `2^32` characters
`'a'` (4 GiB of UTF-8) does not round-trip. Its serialized form is
`2^32 + 12` bytes, the `u32` length prefix truncates to 12, so the reader
takes only the 12 header bytes, whose declared string length `2^32` then
overruns the remaining 0 bytes: decoding returns `none`, not the original
request. -/
theorem codec_roundtrip_fails_on_huge_name :
    read_request (send_request
        (.DownloadFileByName (String.mk (List.replicate (2 ^ 32) 'a')))) = none := by
  have hb : str_bytes (String.mk (List.replicate (2 ^ 32) 'a'))
      = List.replicate (2 ^ 32) 97 := by
    show utf8_encode (List.replicate (2 ^ 32) 'a') = _
    exact utf8_encode_replicate (2 ^ 32)
  have e1 : send_request (.DownloadFileByName (String.mk (List.replicate (2 ^ 32) 'a')))
      = u32le (u32le 3 ++ u64le (2 ^ 32) ++ List.replicate (2 ^ 32) 97).length
          ++ (u32le 3 ++ u64le (2 ^ 32) ++ List.replicate (2 ^ 32) 97) := by
    rw [send_request, serialize_request, hb, List.length_replicate]
  rw [e1]
  generalize hbs : List.replicate (2 ^ 32) (97 : Nat) = bs
  have hbs_len : bs.length = 2 ^ 32 := by
    rw [← hbs, List.length_replicate]
  have hserlen : (u32le 3 ++ u64le (2 ^ 32) ++ bs).length = 2 ^ 32 + 12 := by
    simp only [List.length_append, u32le, u64le, List.length_cons, List.length_nil, hbs_len]
    omega
  have htake : (u32le 3 ++ u64le (2 ^ 32) ++ bs).take 12 = u32le 3 ++ u64le (2 ^ 32) := by
    rw [List.append_assoc, List.take_append_eq_append_take,
      List.take_of_length_le (l := u32le (3 : Nat)) (by simp [u32le]),
      show (12 : Nat) - (u32le (3 : Nat)).length = 8 by simp [u32le],
      List.take_append_eq_append_take,
      List.take_of_length_le (l := u64le (2 ^ 32 : Nat)) (by simp [u64le]),
      show (8 : Nat) - (u64le (2 ^ 32 : Nat)).length = 0 by simp [u64le]]
    simp
  have h64 : parse_u64 (u64le (2 ^ 32)) = some (2 ^ 32, []) := by
    have h := parse_u64_u64le (2 ^ 32) []
    simpa using h
  have hmod : (2 ^ 32 + 12) % 2 ^ 32 = 12 := by omega
  simp only [read_request, parse_u32_u32le, hserlen, hmod]
  rw [if_neg (by omega)]
  rw [htake]
  simp only [deserialize_request, parse_u32_u32le, h64]
  norm_num

end Oxideux
